import Mathlib

/-!
Verification of the BitSlow marketplace ledger API
(source: src/test-main/src/index.tsx) against its specification.

The HTTP handlers are shallowly embedded as pure functions over an explicit
database state. SQLite tables become lists of records. Timestamps are
abstracted to naturals (the code stores ISO-8601 strings, whose string
order is chronological, i.e. order-isomorphic to Nat). Random draws of
the coin generator are modelled as an explicit stream of Fin 100 triples,
because Math.floor(Math.random()*100) always lies in 0..99. bcrypt
hashing and comparison are modelled as function parameters (the spec
treats password hashing as a delegated external library).
-/

namespace BitSlowMarket

/-- A row of the clients table. -/
structure Client where
  id : Nat
  name : String
  email : String
  password : String
  phone : Option String
  address : Option String
  deriving DecidableEq, Repr

/-- A row of the coins table (interface CoinRow in the source). -/
structure Coin where
  coin_id : Nat
  value : Int
  bit1 : Nat
  bit2 : Nat
  bit3 : Nat
  client_id : Option Nat
  deriving DecidableEq, Repr

/-- A row of the transactions table. -/
structure Transaction where
  id : Nat
  coin_id : Nat
  amount : Int
  transaction_date : Nat
  seller_id : Option Nat
  buyer_id : Nat
  deriving DecidableEq, Repr

/-- The whole database state. -/
structure DB where
  clients : List Client
  coins : List Coin
  transactions : List Transaction
  deriving DecidableEq, Repr

/-- Replace a coin's owner, keeping every other column. -/
def Coin.setOwner (c : Coin) (o : Option Nat) : Coin :=
  ⟨c.coin_id, c.value, c.bit1, c.bit2, c.bit3, o⟩

/-- Largest element of a list of naturals, 0 when empty. -/
def maxNat (l : List Nat) : Nat := l.foldr max 0

/-- Modelled from the spec: the schema and seed script (src/seed.ts) are not
included under src/. The spec states transaction ids are unique and
generated; a fresh SQLite rowid is one greater than the current maximum. -/
def nextTxId (db : DB) : Nat := maxNat (db.transactions.map (·.id)) + 1

/-- Modelled from the spec: the schema and seed script (src/seed.ts) are not
included under src/. The spec states coin_id is unique and generated;
a fresh SQLite rowid is one greater than the current maximum. -/
def nextCoinId (db : DB) : Nat := maxNat (db.coins.map (·.coin_id)) + 1

/-- Modelled from the spec: the schema and seed script (src/seed.ts) are not
included under src/. The spec states client ids are unique and generated;
a fresh SQLite rowid is one greater than the current maximum. -/
def nextClientId (db : DB) : Nat := maxNat (db.clients.map (·.id)) + 1

/-- SELECT * FROM coins WHERE coin_id = ? followed by .get():
the first matching row, if any. -/
def findCoin (db : DB) (cid : Nat) : Option Coin :=
  db.coins.find? (fun c => c.coin_id == cid)

/-- JavaScript truthiness of a number-or-null value: null and 0 are falsy. -/
def truthyId : Option Nat → Bool
  | none => false
  | some n => n != 0

/-- The /api/buy handler. Request body carries coin_id and buyer_id; `now`
is the timestamp taken by new Date().toISOString(). Returns the HTTP
status and the database after the call.

  - no coin row: 404, nothing changed;
  - coin.client_id && coin.client_id === buyer_id: 400, nothing changed;
  - otherwise: seller_id := coin.client_id || null, the coin rows with this
    coin_id get client_id = buyer_id, and one transaction row is inserted
    with the coin's value as amount. -/
def buyCoin (db : DB) (cid buyer now : Nat) : Nat × DB :=
  match findCoin db cid with
  | none => (404, db)
  | some coin =>
    if truthyId coin.client_id && (coin.client_id == some buyer) then
      (400, db)
    else
      let seller : Option Nat := if truthyId coin.client_id then coin.client_id else none
      let coins' := db.coins.map (fun c => if c.coin_id == cid then c.setOwner (some buyer) else c)
      let tx : Transaction := ⟨nextTxId db, cid, coin.value, now, seller, buyer⟩
      (200, ⟨db.clients, coins', db.transactions ++ [tx]⟩)

/-- SELECT bit1, bit2, bit3 FROM coins, then used.some(...): is the triple
already taken? -/
def usedTriple (db : DB) (b1 b2 b3 : Nat) : Bool :=
  db.coins.any (fun c => c.bit1 == b1 && c.bit2 == b2 && c.bit3 == b3)

/-- One random draw of the generator: three values of
Math.floor(Math.random()*100), each in 0..99. -/
abbrev Draw := Fin 100 × Fin 100 × Fin 100

/-- The triple (bit1, bit2, bit3) produced from a draw, each component
shifted into 1..100 by the + 1 in the source. -/
def drawBits (d : Draw) : Nat × Nat × Nat :=
  (d.1.val + 1, d.2.1.val + 1, d.2.2.val + 1)

/-- The do/while retry loop of /api/generate-coin: the k-th loop iteration
draws `draws k` and exits successfully when the triple is unused; after
10000 used draws the attempt counter exceeds the cap and the loop breaks
(the final extra draw made just before breaking is discarded). Result:
the bits of the first unused draw among draws 0..9999, if any. -/
def findFreshTriple (db : DB) (draws : Nat → Draw) : Option (Nat × Nat × Nat) :=
  ((List.range 10000).find? (fun k =>
    let b := drawBits (draws k)
    !(usedTriple db b.1 b.2.1 b.2.2))).map (fun k => drawBits (draws k))

/-- The /api/generate-coin handler. Request body carries amount; the random
stream is an explicit parameter. On success inserts one unowned coin row
(client_id NULL) and answers 201; when the attempt budget is exhausted
answers 400 and leaves the database unchanged. -/
def generateCoin (db : DB) (amount : Int) (draws : Nat → Draw) : Nat × DB :=
  match findFreshTriple db draws with
  | none => (400, db)
  | some (b1, b2, b3) =>
    (201, ⟨db.clients, db.coins ++ [⟨nextCoinId db, amount, b1, b2, b3, none⟩], db.transactions⟩)

/-- The /api/register handler (POST body already parsed). `hashFn` stands
for bcrypt.hash with 10 salt rounds. -/
def register (db : DB) (hashFn : String → String)
    (name email password : String) (phone address : Option String) : Nat × DB :=
  match db.clients.find? (fun c => c.email == email) with
  | some _ => (400, db)
  | none =>
    (201, ⟨db.clients ++ [⟨nextClientId db, name, email, hashFn password, phone, address⟩],
      db.coins, db.transactions⟩)

/-- The /api/login handler (POST body already parsed). `compareFn` stands
for bcrypt.compare. -/
def login (db : DB) (compareFn : String → String → Bool)
    (email password : String) : Nat × DB :=
  match db.clients.find? (fun c => c.email == email) with
  | none => (404, db)
  | some user =>
    if compareFn password user.password then (200, db) else (401, db)

/-- Does the subject start with the pattern? -/
def startsWithChars : List Char → List Char → Bool
  | [], _ => true
  | _ :: _, [] => false
  | p :: ps, c :: cs => p == c && startsWithChars ps cs

/-- Does the subject contain the pattern as a contiguous run? -/
def containsChars (pat : List Char) : List Char → Bool
  | [] => startsWithChars pat []
  | c :: cs => startsWithChars pat (c :: cs) || containsChars pat cs

/-- SQLite LIKE with a %pattern%: case-insensitive containment of the
pattern in the subject. -/
def likeContains (pat s : String) : Bool :=
  containsChars (pat.toList.map Char.toLower) (s.toList.map Char.toLower)

/-- The six optional filters of /api/transactions. A query parameter that
is absent or empty is falsy in the handler and contributes no WHERE
clause; such a parameter is modelled as `none`. Dates are abstracted to
naturals, values to integers (SQLite compares the bound text against the
numeric column under numeric affinity). -/
structure TxFilters where
  startDate : Option Nat
  endDate : Option Nat
  minValue : Option Int
  maxValue : Option Int
  buyerName : Option String
  sellerName : Option String
  deriving DecidableEq, Repr

/-- The filterless request. -/
def TxFilters.none : TxFilters := ⟨Option.none, Option.none, Option.none, Option.none, Option.none, Option.none⟩

/-- LEFT JOIN clients seller ON t.seller_id = seller.id: one output row per
matching client; when seller_id is NULL or matches no client, a single
row with NULL seller columns survives. -/
def sellerJoin (clients : List Client) : Option Nat → List (Option Client)
  | none => [none]
  | some sid =>
    match clients.filter (fun c => c.id == sid) with
    | [] => [none]
    | ms => ms.map some

/-- A row of the joined SELECT of /api/transactions: the transaction with
its (left-joined) seller, its buyer and its coin. -/
structure JoinedTx where
  t : Transaction
  seller : Option Client
  buyer : Client
  coin : Coin
  deriving DecidableEq, Repr

/-- FROM transactions t LEFT JOIN clients seller JOIN clients buyer
JOIN coins c: the rows produced by one transaction. -/
def joinTx (db : DB) (t : Transaction) : List JoinedTx :=
  (sellerJoin db.clients t.seller_id).flatMap (fun s =>
    (db.clients.filter (fun b => b.id == t.buyer_id)).flatMap (fun b =>
      (db.coins.filter (fun c => c.coin_id == t.coin_id)).map (fun c => ⟨t, s, b, c⟩)))

/-- All rows of the four-table join of /api/transactions. -/
def joinedRows (db : DB) : List JoinedTx :=
  db.transactions.flatMap (joinTx db)

/-- The WHERE clause of /api/transactions: the conjunction of the supplied
filters evaluated on a joined row. A NULL seller name satisfies no LIKE
clause. -/
def rowMatches (f : TxFilters) (r : JoinedTx) : Bool :=
  (match f.startDate with
   | none => true
   | some d => decide (d ≤ r.t.transaction_date)) &&
  (match f.endDate with
   | none => true
   | some d => decide (r.t.transaction_date ≤ d)) &&
  (match f.minValue with
   | none => true
   | some v => decide (v ≤ r.coin.value)) &&
  (match f.maxValue with
   | none => true
   | some v => decide (r.coin.value ≤ v)) &&
  (match f.buyerName with
   | none => true
   | some p => likeContains p r.buyer.name) &&
  (match f.sellerName with
   | none => true
   | some p => match r.seller with
     | none => false
     | some s => likeContains p s.name)

/-- ORDER BY t.transaction_date DESC. -/
def dateDesc (a b : JoinedTx) : Prop :=
  b.t.transaction_date ≤ a.t.transaction_date

instance : DecidableRel dateDesc := fun _ _ => Nat.decLe _ _

instance : IsTotal JoinedTx dateDesc := ⟨fun a b => Nat.le_total b.t.transaction_date a.t.transaction_date⟩

instance : IsTrans JoinedTx dateDesc := ⟨fun _ _ _ h h' => Nat.le_trans h' h⟩

/-- LIMIT l OFFSET o with SQLite semantics: a negative offset skips
nothing, a negative limit returns every remaining row. -/
def sqlLimitOffset (l o : Int) (xs : List JoinedTx) : List JoinedTx :=
  let dropped := xs.drop o.toNat
  if l < 0 then dropped else dropped.take l.toNat

/-- The response of /api/transactions. -/
structure TxPage where
  rows : List JoinedTx
  total : Nat
  page : Int
  limit : Int
  deriving DecidableEq, Repr

/-- The /api/transactions handler: joined rows filtered by the WHERE
clause, ordered by transaction date descending, paginated with
offset = (page - 1) * limit; total comes from the same joins and WHERE
clause without LIMIT/OFFSET. -/
def listTransactions (db : DB) (f : TxFilters) (page limit : Int) : TxPage :=
  let offset := (page - 1) * limit
  let filtered := (joinedRows db).filter (rowMatches f)
  let sorted := filtered.insertionSort dateDesc
  ⟨sqlLimitOffset limit offset sorted, filtered.length, page, limit⟩

/-- SQL MAX over a column: NULL (none) on an empty set of rows. -/
def sqlMaxNat : List Nat → Option Nat
  | [] => none
  | x :: xs =>
    match sqlMaxNat xs with
    | none => some x
    | some m => some (max x m)

/-- The correlated subquery SELECT MAX(id) FROM transactions t2 WHERE
t2.coin_id = c.coin_id; NULL (none) when the coin has no transaction. -/
def maxTxIdFor (db : DB) (cid : Nat) : Option Nat :=
  sqlMaxNat ((db.transactions.filter (fun t => t.coin_id == cid)).map (·.id))

/-- The coins JOIN transactions rows of the /api/profile owned-coins query:
one row per coin whose joined transaction is its MAX(id) transaction and
has the user as buyer. -/
def profileCoinRows (db : DB) (u : Nat) : List Coin :=
  db.coins.flatMap (fun c =>
    (db.transactions.filter (fun t =>
      t.coin_id == c.coin_id && maxTxIdFor db c.coin_id == some t.id && t.buyer_id == u)).map
      (fun _ => c))

/-- The response of /api/profile. -/
structure ProfileData where
  totalTransactions : Nat
  totalBitSlow : Nat
  totalValue : Int
  deriving DecidableEq, Repr

/-- The /api/profile handler: COUNT of transactions with the user as buyer
or seller, plus count and summed value (a for..of accumulation) of the
user's owned coins. -/
def profileSummary (db : DB) (u : Nat) : ProfileData :=
  let owned := profileCoinRows db u
  ⟨(db.transactions.filter (fun t => t.buyer_id == u || t.seller_id == some u)).length,
    owned.length,
    owned.foldl (fun acc c => acc + c.value) 0⟩

/-- A row of the /api/coin-history SELECT: the transaction with its
(left-joined) seller and its buyer. -/
structure HistRow where
  t : Transaction
  seller : Option Client
  buyer : Client
  deriving DecidableEq, Repr

/-- FROM transactions t LEFT JOIN clients seller JOIN clients buyer:
the rows produced by one transaction for /api/coin-history. -/
def joinHist (db : DB) (t : Transaction) : List HistRow :=
  (sellerJoin db.clients t.seller_id).flatMap (fun s =>
    (db.clients.filter (fun b => b.id == t.buyer_id)).map (fun b => ⟨t, s, b⟩))

/-- ORDER BY t.transaction_date ASC. -/
def dateAsc (a b : HistRow) : Prop :=
  a.t.transaction_date ≤ b.t.transaction_date

instance : DecidableRel dateAsc := fun _ _ => Nat.decLe _ _

instance : IsTotal HistRow dateAsc := ⟨fun a b => Nat.le_total a.t.transaction_date b.t.transaction_date⟩

instance : IsTrans HistRow dateAsc := ⟨fun _ _ _ h h' => Nat.le_trans h h'⟩

/-- The /api/coin-history handler's result set: the joined rows restricted
by WHERE t.coin_id = ?, ordered by transaction date ascending. -/
def coinHistory (db : DB) (cid : Nat) : List HistRow :=
  ((db.transactions.flatMap (joinHist db)).filter (fun r => r.t.coin_id == cid)).insertionSort dateAsc

/-- The seller half of one line of the MarketPlace history modal:
`entry.seller_name` is truthy (a non-empty string) or the entry is shown
as coming from the original issuer. -/
def renderSellerPart : Option String → String
  | some n => if n == "" then "Original Issuer → " else n ++ " → "
  | none => "Original Issuer → "

/-- One line of the MarketPlace history modal (without the date prefix):
seller part followed by the buyer's name. -/
def renderHistEntry (r : HistRow) : String :=
  renderSellerPart (r.seller.map (·.name)) ++ r.buyer.name

/-- The /api/coins handler's result rows: coins ordered by coin_id with the
current owner name resolved through the most recent transaction. Shown
for completeness of the route table; no claim is about its content. -/
def listCoins (db : DB) (page limit : Int) : List Coin :=
  let sorted := db.coins.insertionSort (fun a b => a.coin_id ≤ b.coin_id)
  (sorted.drop ((page - 1) * limit).toNat).take limit.toNat

/-- The mutating / state-reading operations of the ledger whose interplay
claim C2 is about, with their request parameters; the random stream of a
generation call is part of the operation. -/
inductive Op where
  | buy (cid buyer now : Nat)
  | gen (amount : Int) (draws : Nat → Draw)

/-- The database after one API call (both success and failure branches). -/
def applyOp (db : DB) : Op → DB
  | .buy cid buyer now => (buyCoin db cid buyer now).2
  | .gen amount draws => (generateCoin db amount draws).2

/-- The database after a sequence of API calls. -/
def runOps (db : DB) (ops : List Op) : DB := ops.foldl applyOp db

/-- The most recent transaction of a coin: transactions are inserted with
increasing rowids, so the last inserted row for the coin is the one with
the maximal id. -/
def lastTxFor (txs : List Transaction) (cid : Nat) : Option Transaction :=
  (txs.filter (fun t => t.coin_id == cid)).getLast?

/-- The ownership invariant of the spec: every coin's client_id is the
buyer of its most recent transaction, or NULL when it has none. -/
def OwnerMatchesLastTx (db : DB) : Prop :=
  ∀ c ∈ db.coins, c.client_id = (lastTxFor db.transactions c.coin_id).map (·.buyer_id)

/-- Referential soundness of the ledger: every transaction is about a coin
that is present in the coins table. It holds of every database the
system builds (/api/buy checks the coin exists before inserting) and is
the auxiliary fact making the ownership invariant inductive. -/
def TxReferencesCoin (db : DB) : Prop :=
  ∀ t ∈ db.transactions, ∃ c ∈ db.coins, c.coin_id = t.coin_id

/-- Claim-side reading of a transaction-listing filter row: the transaction
satisfies every supplied filter, its coin and its buyer/seller being
resolved by id lookup in their tables. -/
def txSatisfies (db : DB) (f : TxFilters) (t : Transaction) : Bool :=
  (match f.startDate with
   | none => true
   | some d => decide (d ≤ t.transaction_date)) &&
  (match f.endDate with
   | none => true
   | some d => decide (t.transaction_date ≤ d)) &&
  (match f.minValue with
   | none => true
   | some v =>
     match findCoin db t.coin_id with
     | none => false
     | some c => decide (v ≤ c.value)) &&
  (match f.maxValue with
   | none => true
   | some v =>
     match findCoin db t.coin_id with
     | none => false
     | some c => decide (c.value ≤ v)) &&
  (match f.buyerName with
   | none => true
   | some p =>
     match db.clients.find? (fun b => b.id == t.buyer_id) with
     | none => false
     | some b => likeContains p b.name) &&
  (match f.sellerName with
   | none => true
   | some p =>
     match t.seller_id with
     | none => false
     | some sid =>
       match db.clients.find? (fun c => c.id == sid) with
       | none => false
       | some s => likeContains p s.name)

/-- Claim-side reading of ownership for the profile summary: the coins
whose most recent transaction names the user as buyer. -/
def ownedByUser (db : DB) (u : Nat) : List Coin :=
  db.coins.filter (fun c =>
    match lastTxFor db.transactions c.coin_id with
    | some t => t.buyer_id == u
    | none => false)

/-- HTTP verbs. -/
inductive Method where
  | GET
  | POST
  | PUT
  | DELETE
  deriving DecidableEq, Repr

/-- A parsed API request: the verb together with every body field and query
parameter any of the eight routes reads. An absent or empty query
parameter is `none`. -/
structure ApiRequest where
  method : Method
  name : String
  email : String
  password : String
  phone : Option String
  address : Option String
  coin_id : Nat
  buyer_id : Nat
  amount : Int
  userId : Option Nat
  histCoinId : Option Nat
  filters : TxFilters
  page : Int
  limit : Int
  deriving Repr

/-- A request with the given verb and vacuous parameters. -/
def emptyReq (m : Method) : ApiRequest :=
  ⟨m, "", "", "", none, none, 0, 0, 0, none, none, TxFilters.none, 1, 15⟩

/-- /api/register checks the verb: non-POST requests get 405 before any
database access. -/
def registerRoute (hashFn : String → String) (db : DB) (r : ApiRequest) : Nat × DB :=
  if r.method == Method.POST then
    register db hashFn r.name r.email r.password r.phone r.address
  else (405, db)

/-- /api/login checks the verb: non-POST requests get 405. -/
def loginRoute (compareFn : String → String → Bool) (db : DB) (r : ApiRequest) : Nat × DB :=
  if r.method == Method.POST then login db compareFn r.email r.password
  else (405, db)

/-- /api/transactions performs no verb check: the handler runs its queries
and answers 200 for every verb. The payload is listTransactions. -/
def transactionsRoute (db : DB) (r : ApiRequest) : Nat × DB :=
  let _payload := listTransactions db r.filters r.page r.limit
  (200, db)

/-- /api/profile performs no verb check; a missing userId parameter gets
400, otherwise the summary is computed and answered with 200. (The
handler's 404 branch needs the COUNT query to return no row, which an
aggregate never does.) -/
def profileRoute (db : DB) (r : ApiRequest) : Nat × DB :=
  match r.userId with
  | none => (400, db)
  | some u =>
    let _payload := profileSummary db u
    (200, db)

/-- /api/coins performs no verb check: the handler runs its queries and
answers 200 for every verb. The payload is listCoins. -/
def coinsRoute (db : DB) (r : ApiRequest) : Nat × DB :=
  let _payload := listCoins db r.page r.limit
  (200, db)

/-- /api/buy checks the verb: non-POST requests get 405 before the coin is
looked up. -/
def buyRoute (now : Nat) (db : DB) (r : ApiRequest) : Nat × DB :=
  if r.method == Method.POST then buyCoin db r.coin_id r.buyer_id now
  else (405, db)

/-- /api/generate-coin checks the verb: non-POST requests get 405. -/
def generateRoute (draws : Nat → Draw) (db : DB) (r : ApiRequest) : Nat × DB :=
  if r.method == Method.POST then generateCoin db r.amount draws
  else (405, db)

/-- /api/coin-history checks the verb: non-GET requests get 405; a missing
coin_id parameter gets 400; otherwise the history is computed. -/
def coinHistoryRoute (db : DB) (r : ApiRequest) : Nat × DB :=
  if r.method == Method.GET then
    match r.histCoinId with
    | none => (400, db)
    | some cid =>
      let _payload := coinHistory db cid
      (200, db)
  else (405, db)

/-- The route table of the server's fetch handler: pathname keys mapped to
their handlers; non-API paths fall through to asset serving (`none`). -/
def apiDispatch (hashFn : String → String) (compareFn : String → String → Bool)
    (draws : Nat → Draw) (now : Nat) (db : DB) (path : String) (r : ApiRequest) :
    Option (Nat × DB) :=
  if path == "/api/register" then some (registerRoute hashFn db r)
  else if path == "/api/transactions" then some (transactionsRoute db r)
  else if path == "/api/login" then some (loginRoute compareFn db r)
  else if path == "/api/profile" then some (profileRoute db r)
  else if path == "/api/coins" then some (coinsRoute db r)
  else if path == "/api/buy" then some (buyRoute now db r)
  else if path == "/api/generate-coin" then some (generateRoute draws db r)
  else if path == "/api/coin-history" then some (coinHistoryRoute db r)
  else none

/-- The client a LEFT JOIN resolves an optional id to: the first client
with that id, none when the id is NULL or unknown. -/
def sellerLookup (clients : List Client) : Option Nat → Option Client
  | none => none
  | some sid => clients.find? (fun c => c.id == sid)

/-- The empty database. -/
def emptyDB : DB := ⟨[], [], []⟩

/-- Claim C1: the trichotomy of /api/buy. Either the coin does not exist
and the request fails with 404 leaving the database unchanged; or the
coin's current owner is the buyer and the request fails with 400 leaving
the database unchanged; or the request succeeds with 200, the coin's
owner becomes the buyer, and exactly one transaction is appended whose
seller is the owner immediately before the call (none when unowned),
whose amount is the coin's value and whose buyer is the given buyer. -/
def BuyBehaviour (db : DB) (cid buyer now : Nat) : Prop :=
  (findCoin db cid = none ∧ buyCoin db cid buyer now = (404, db)) ∨
  (∃ coin, findCoin db cid = some coin ∧ coin.client_id = some buyer ∧
    buyCoin db cid buyer now = (400, db)) ∨
  (∃ coin, findCoin db cid = some coin ∧ coin.client_id ≠ some buyer ∧
    (buyCoin db cid buyer now).1 = 200 ∧
    (buyCoin db cid buyer now).2.clients = db.clients ∧
    (buyCoin db cid buyer now).2.coins =
      db.coins.map (fun c => if c.coin_id == cid then c.setOwner (some buyer) else c) ∧
    (buyCoin db cid buyer now).2.transactions =
      db.transactions ++ [⟨nextTxId db, cid, coin.value, now, coin.client_id, buyer⟩])

/-- Claim C10: with the coin present and not owned by the buyer, a buy
request succeeds with 200, makes the buyer the owner and appends one
transaction with that buyer — with no condition whatsoever on the
clients table, i.e. the buyer id need not belong to any client. -/
def BuySucceedsFor (db : DB) (cid buyer now : Nat) (coin : Coin) : Prop :=
  (buyCoin db cid buyer now).1 = 200 ∧
  (buyCoin db cid buyer now).2.clients = db.clients ∧
  (buyCoin db cid buyer now).2.coins =
    db.coins.map (fun c => if c.coin_id == cid then c.setOwner (some buyer) else c) ∧
  ∃ s, (buyCoin db cid buyer now).2.transactions =
    db.transactions ++ [⟨nextTxId db, cid, coin.value, now, s, buyer⟩]

/-- The combined inductive invariant of claim C2: ownership matches the
most recent transaction, and every transaction is about an existing
coin. -/
def LedgerInv (db : DB) : Prop :=
  OwnerMatchesLastTx db ∧ TxReferencesCoin db

/-- Claim C4: the total reported by /api/transactions equals the number of
transactions of the whole database satisfying the supplied filters,
whatever page and limit are. -/
def TotalMatchesFilteredCount (db : DB) (f : TxFilters) (page limit : Int) : Prop :=
  (listTransactions db f page limit).total =
    (db.transactions.filter (txSatisfies db f)).length

/-- Claim C5: the three profile aggregates, stated over the raw tables. -/
def ProfileMatchesSpec (db : DB) (u : Nat) : Prop :=
  (profileSummary db u).totalTransactions =
      (db.transactions.filter (fun t => t.buyer_id == u || t.seller_id == some u)).length ∧
  (profileSummary db u).totalBitSlow = (ownedByUser db u).length ∧
  (profileSummary db u).totalValue = ((ownedByUser db u).map (·.value)).sum

/-- Claim C6, stated on one returned row: it satisfies every supplied
filter. -/
def specRowOk (f : TxFilters) (r : JoinedTx) : Prop :=
  (∀ d, f.startDate = some d → d ≤ r.t.transaction_date) ∧
  (∀ d, f.endDate = some d → r.t.transaction_date ≤ d) ∧
  (∀ v, f.minValue = some v → v ≤ r.coin.value) ∧
  (∀ v, f.maxValue = some v → r.coin.value ≤ v) ∧
  (∀ p, f.buyerName = some p → likeContains p r.buyer.name = true) ∧
  (∀ p, f.sellerName = some p → ∃ s, r.seller = some s ∧ likeContains p s.name = true)

/-- Claim C6: the returned page is the slice starting at offset
(page - 1) * limit of the date-descending ordering of the filtered rows,
holding at most limit rows; it is ordered by date descending and every
returned row satisfies the conjunction of the supplied filters. -/
def PageSpec (db : DB) (f : TxFilters) (page limit : Int) : Prop :=
  (listTransactions db f page limit).rows =
      ((((joinedRows db).filter (rowMatches f)).insertionSort dateDesc).drop
        ((page - 1) * limit).toNat).take limit.toNat ∧
  ((((page - 1) * limit).toNat : Int) = (page - 1) * limit) ∧
  (listTransactions db f page limit).rows.Pairwise dateDesc ∧
  ∀ r ∈ (listTransactions db f page limit).rows, specRowOk f r

/-- Claim C7: the history of a coin is exactly its transactions, in
ascending date order, with the buyer resolved to the client carrying the
transaction's buyer id, the seller resolved through the LEFT JOIN lookup,
and a NULL seller rendered by the modal as the original issuer. -/
def HistorySpec (db : DB) (cid : Nat) : Prop :=
  ((coinHistory db cid).map (fun r => r.t)).Perm
      (db.transactions.filter (fun t => t.coin_id == cid)) ∧
  (coinHistory db cid).Pairwise dateAsc ∧
  (∀ r ∈ coinHistory db cid, r.buyer ∈ db.clients ∧ r.buyer.id = r.t.buyer_id ∧
    r.seller = sellerLookup db.clients r.t.seller_id) ∧
  (∀ r ∈ coinHistory db cid, r.t.seller_id = none →
    renderHistEntry r = "Original Issuer → " ++ r.buyer.name)

/-- The corrected claim C9: the four POST routes answer 405 to any non-POST
request; /api/coin-history answers 405 to any non-GET request; in both
cases the database is untouched. -/
def WrongVerbRejected (hashFn : String → String) (compareFn : String → String → Bool)
    (draws : Nat → Draw) (now : Nat) (db : DB) (r1 r2 : ApiRequest) : Prop :=
  apiDispatch hashFn compareFn draws now db "/api/register" r1 = some (405, db) ∧
  apiDispatch hashFn compareFn draws now db "/api/login" r1 = some (405, db) ∧
  apiDispatch hashFn compareFn draws now db "/api/buy" r1 = some (405, db) ∧
  apiDispatch hashFn compareFn draws now db "/api/generate-coin" r1 = some (405, db) ∧
  apiDispatch hashFn compareFn draws now db "/api/coin-history" r2 = some (405, db)

/-! ### General list lemmas shared by several claims -/

theorem maxNat_cons (a : Nat) (t : List Nat) : maxNat (a :: t) = max a (maxNat t) := rfl

theorem mem_le_maxNat {l : List Nat} {x : Nat} (hx : x ∈ l) : x ≤ maxNat l := by
  induction l with
  | nil => cases hx
  | cons a t ih =>
    rw [maxNat_cons]
    rcases List.mem_cons.mp hx with rfl | h
    · exact Nat.le_max_left _ _
    · exact Nat.le_trans (ih h) (Nat.le_max_right _ _)

theorem filter_key_unique {α : Type} (f : α → Nat) {l : List α} {a : α} {v : Nat}
    (hn : (l.map f).Nodup) (ha : a ∈ l) (hv : f a = v) :
    l.filter (fun x => f x == v) = [a] := by
  induction l with
  | nil => cases ha
  | cons hd tl ih =>
    rw [List.map_cons, List.nodup_cons] at hn
    rcases List.mem_cons.mp ha with rfl | h
    · rw [List.filter_cons_of_pos (by simp [hv])]
      have htl : tl.filter (fun x => f x == v) = [] := by
        refine List.filter_eq_nil_iff.mpr (fun x hx hfx => ?_)
        apply hn.1
        rw [hv, ← eq_of_beq hfx]
        exact List.mem_map_of_mem f hx
      rw [htl]
    · have hhd : ¬((f hd == v) = true) := by
        intro hbeq
        apply hn.1
        rw [eq_of_beq hbeq, ← hv]
        exact List.mem_map_of_mem f h
      rw [List.filter_cons, if_neg hhd]
      exact ih hn.2 h

theorem find?_eq_head?_filter {α : Type} (p : α → Bool) (l : List α) :
    l.find? p = (l.filter p).head? := by
  induction l with
  | nil => rfl
  | cons hd tl ih =>
    cases h : p hd
    · rw [List.find?_cons_of_neg _ (by simp [h]), List.filter_cons_of_neg (by simp [h]), ih]
    · rw [List.find?_cons_of_pos _ h, List.filter_cons_of_pos h]
      rfl

theorem filter_key_cases {α : Type} (f : α → Nat) {l : List α} (v : Nat)
    (hn : (l.map f).Nodup) :
    l.filter (fun x => f x == v) = [] ∨
      ∃ a, a ∈ l ∧ f a = v ∧ l.filter (fun x => f x == v) = [a] := by
  cases hfind : l.find? (fun x => f x == v) with
  | none =>
    left
    refine List.filter_eq_nil_iff.mpr (fun x hx hfx => ?_)
    exact (List.find?_eq_none.mp hfind x hx) hfx
  | some a =>
    right
    have ha := List.mem_of_find?_eq_some hfind
    have hv : f a = v := by
      have := List.find?_some hfind
      simpa using this
    exact ⟨a, ha, hv, filter_key_unique f hn ha hv⟩

theorem length_filter_flatMap_singleton {α β : Type} (l : List α) (j : α → List β)
    (p : β → Bool) (q : α → Bool)
    (h : ∀ t ∈ l, ∃ r, j t = [r] ∧ p r = q t) :
    ((l.flatMap j).filter p).length = (l.filter q).length := by
  induction l with
  | nil => rfl
  | cons t ts ih =>
    obtain ⟨r, hj, hpq⟩ := h t (List.mem_cons_self t ts)
    have ihh := ih (fun x hx => h x (List.mem_cons_of_mem _ hx))
    rw [List.flatMap_cons, List.filter_append, List.length_append, hj]
    cases hq : q t
    · have hfr : List.filter p [r] = [] := by simp [List.filter_cons, hpq, hq]
      have hft : List.filter q (t :: ts) = List.filter q ts := by simp [List.filter_cons, hq]
      rw [hfr, hft]
      simpa using ihh
    · have hfr : List.filter p [r] = [r] := by simp [List.filter_cons, hpq, hq]
      have hft : List.filter q (t :: ts) = t :: List.filter q ts := by
        simp [List.filter_cons, hq]
      rw [hfr, hft]
      simp only [List.length_cons, List.length_nil, ihh]
      omega

theorem filter_flatMap_map_eq {α β : Type} (l : List α) (j : α → List β) (rT : β → α)
    (k : α → Bool)
    (h : ∀ t ∈ l, ∃ r, j t = [r] ∧ rT r = t) :
    ((l.flatMap j).filter (fun r => k (rT r))).map rT = l.filter k := by
  induction l with
  | nil => rfl
  | cons t ts ih =>
    obtain ⟨r, hj, hrt⟩ := h t (List.mem_cons_self t ts)
    have ihh := ih (fun x hx => h x (List.mem_cons_of_mem _ hx))
    rw [List.flatMap_cons, List.filter_append, List.map_append, hj]
    cases hk : k t
    · have hfr : List.filter (fun r => k (rT r)) [r] = [] := by
        simp [List.filter_cons, hrt, hk]
      have hft : List.filter k (t :: ts) = List.filter k ts := by simp [List.filter_cons, hk]
      rw [hfr, hft]
      simpa using ihh
    · have hfr : List.filter (fun r => k (rT r)) [r] = [r] := by
        simp [List.filter_cons, hrt, hk]
      have hft : List.filter k (t :: ts) = t :: List.filter k ts := by
        simp [List.filter_cons, hk]
      rw [hfr, hft]
      simp [ihh, hrt]

theorem flatMap_if_singleton_eq_filter {α : Type} (l : List α) (p : α → Bool) :
    (l.flatMap (fun a => if p a then [a] else [])) = l.filter p := by
  induction l with
  | nil => rfl
  | cons a t ih =>
    rw [List.flatMap_cons, ih]
    cases h : p a
    · simp [List.filter_cons, h]
    · simp [List.filter_cons, h]

theorem sqlMaxNat_cons (x : Nat) (l : List Nat) :
    sqlMaxNat (x :: l) =
      match sqlMaxNat l with
      | none => some x
      | some m => some (max x m) := rfl

theorem sqlMaxNat_cons_isSome (x : Nat) (l : List Nat) : (sqlMaxNat (x :: l)).isSome := by
  rw [sqlMaxNat_cons]
  cases sqlMaxNat l <;> simp

theorem sqlMaxNat_increasing : ∀ {l : List Nat}, l.Pairwise (· < ·) → sqlMaxNat l = l.getLast?
  | [], _ => rfl
  | [x], _ => rfl
  | x :: y :: t, h => by
    obtain ⟨h1, h2⟩ := List.pairwise_cons.mp h
    have ih := sqlMaxNat_increasing h2
    cases hm : sqlMaxNat (y :: t) with
    | none => exact absurd (hm ▸ sqlMaxNat_cons_isSome y t) (by simp)
    | some m =>
      have hmem : m ∈ y :: t :=
        List.mem_of_getLast?_eq_some (by rw [← ih, hm])
      have hxm : x < m := h1 m hmem
      have hstep : sqlMaxNat (x :: y :: t) = some (max x m) := by
        rw [sqlMaxNat_cons, hm]
      rw [hstep, max_eq_right (le_of_lt hxm), List.getLast?_cons_cons, ← ih, hm]

theorem foldl_add_value (l : List Coin) (i : Int) :
    l.foldl (fun acc c => acc + c.value) i = i + (l.map (·.value)).sum := by
  induction l generalizing i with
  | nil => simp
  | cons c t ih =>
    rw [List.foldl_cons, ih, List.map_cons, List.sum_cons]
    ring

/-! ### The one-row shape of the joins under key uniqueness -/

theorem sellerJoin_eq_lookup (clients : List Client) (hn : (clients.map (·.id)).Nodup)
    (sid : Option Nat) : sellerJoin clients sid = [sellerLookup clients sid] := by
  cases sid with
  | none => rfl
  | some s =>
    have hlk : sellerLookup clients (some s) = (clients.filter (fun c => c.id == s)).head? := by
      rw [sellerLookup, find?_eq_head?_filter]
    rcases filter_key_cases Client.id s hn with hnil | ⟨a, _, _, hone⟩
    · rw [hlk, hnil]
      simp [sellerJoin, hnil]
    · rw [hlk, hone]
      simp [sellerJoin, hone]

theorem joinHist_eq_singleton (db : DB) (t : Transaction)
    (hn : (db.clients.map (·.id)).Nodup)
    (b : Client) (hb : b ∈ db.clients) (hbid : b.id = t.buyer_id) :
    joinHist db t = [⟨t, sellerLookup db.clients t.seller_id, b⟩] := by
  have hbf := filter_key_unique Client.id hn hb hbid
  rw [joinHist, sellerJoin_eq_lookup db.clients hn, hbf]
  simp

theorem joinTx_eq_singleton (db : DB) (t : Transaction)
    (hcn : (db.clients.map (·.id)).Nodup)
    (b : Client) (hb : b ∈ db.clients) (hbid : b.id = t.buyer_id)
    (c : Coin) (hc : c ∈ db.coins) (hcid : c.coin_id = t.coin_id)
    (hkn : (db.coins.map (·.coin_id)).Nodup) :
    joinTx db t = [⟨t, sellerLookup db.clients t.seller_id, b, c⟩] := by
  have hbf := filter_key_unique Client.id hcn hb hbid
  have hcf := filter_key_unique Coin.coin_id hkn hc hcid
  rw [joinTx, sellerJoin_eq_lookup db.clients hcn, hbf, hcf]
  simp

theorem rowMatches_joined_eq (db : DB) (f : TxFilters) (t : Transaction)
    (hcn : (db.clients.map (·.id)).Nodup)
    (b : Client) (hb : b ∈ db.clients) (hbid : b.id = t.buyer_id)
    (c : Coin) (hc : c ∈ db.coins) (hcid : c.coin_id = t.coin_id)
    (hkn : (db.coins.map (·.coin_id)).Nodup) :
    rowMatches f ⟨t, sellerLookup db.clients t.seller_id, b, c⟩ = txSatisfies db f t := by
  have hfc : findCoin db t.coin_id = some c := by
    rw [findCoin, find?_eq_head?_filter, filter_key_unique Coin.coin_id hkn hc hcid]
    rfl
  have hfb : db.clients.find? (fun x => x.id == t.buyer_id) = some b := by
    rw [find?_eq_head?_filter, filter_key_unique Client.id hcn hb hbid]
    rfl
  cases hsid : t.seller_id with
  | none => simp only [rowMatches, txSatisfies, sellerLookup, hfc, hfb, hsid]
  | some sid => simp only [rowMatches, txSatisfies, sellerLookup, hfc, hfb, hsid]

/-! ### Claim C1 -/

/-- Claim C1: every /api/buy request falls into the spec's trichotomy —
unknown coin: 404 and no change; coin already owned by the buyer: 400
and no change; otherwise 200, the coin's owner becomes the buyer and
exactly one transaction is appended recording the previous owner as
seller (none when unowned), the coin's value as amount and the given
buyer. The hypothesis rules out the id 0, which no generated client id
ever takes: the handler's JavaScript truthiness tests would treat an
owner id 0 like an absent owner. -/
theorem buy_trichotomy (db : DB) (cid buyer now : Nat)
    (h0 : ∀ c ∈ db.coins, c.client_id ≠ some 0) :
    BuyBehaviour db cid buyer now := by
  unfold BuyBehaviour
  cases hf : findCoin db cid with
  | none =>
    left
    exact ⟨rfl, by simp [buyCoin, hf]⟩
  | some coin =>
    have hmem : coin ∈ db.coins := List.mem_of_find?_eq_some hf
    have hnz : coin.client_id ≠ some 0 := h0 coin hmem
    by_cases hcond : (truthyId coin.client_id && (coin.client_id == some buyer)) = true
    · right; left
      obtain ⟨_, hbeq⟩ := Bool.and_eq_true_iff.mp hcond
      exact ⟨coin, rfl, eq_of_beq hbeq, by simp [buyCoin, hf, hcond]⟩
    · right; right
      have hcf : (truthyId coin.client_id && (coin.client_id == some buyer)) = false :=
        Bool.eq_false_iff.mpr hcond
      have hne : coin.client_id ≠ some buyer := by
        intro heq
        apply hcond
        have hb0 : buyer ≠ 0 := by
          intro hb
          exact hnz (by rw [heq, hb])
        rw [heq]
        simp [truthyId, hb0]
      have hseller : (if truthyId coin.client_id then coin.client_id else none) =
          coin.client_id := by
        cases hcc : coin.client_id with
        | none => rfl
        | some v =>
          have hv0 : v ≠ 0 := by
            intro hv
            exact hnz (by rw [hcc, hv])
          simp [truthyId, hv0]
      refine ⟨coin, rfl, hne, ?_, ?_, ?_, ?_⟩ <;>
        simp [buyCoin, hf, hcf, hseller]

/-- Witness for C1 at a concrete database: a coin owned by client 7 bought
again by client 7 (the Conflict branch of the trichotomy). -/
theorem buy_trichotomy_witness :
    (∀ c ∈ (DB.mk [] [⟨1, 100, 1, 2, 3, some 7⟩] []).coins, c.client_id ≠ some 0) ∧
    BuyBehaviour ⟨[], [⟨1, 100, 1, 2, 3, some 7⟩], []⟩ 1 7 5 :=
  ⟨by decide, buy_trichotomy ⟨[], [⟨1, 100, 1, 2, 3, some 7⟩], []⟩ 1 7 5 (by decide)⟩

/-! ### Claim C10 -/

/-- Claim C10: /api/buy never consults the clients table. On any database,
for any existing coin whose owner differs from the requested buyer id,
the purchase succeeds with 200, the coin's owner becomes that buyer id
and a transaction carrying that buyer id is appended — even when the
buyer id belongs to no client. -/
theorem buy_accepts_unknown_buyer (db : DB) (cid buyer now : Nat) (coin : Coin)
    (hf : findCoin db cid = some coin)
    (hne : (coin.client_id == some buyer) = false) :
    BuySucceedsFor db cid buyer now coin := by
  have hcf : (truthyId coin.client_id && (coin.client_id == some buyer)) = false := by
    rw [hne, Bool.and_false]
  refine ⟨?_, ?_, ?_, if truthyId coin.client_id then coin.client_id else none, ?_⟩ <;>
    simp [buyCoin, hf, hcf]

/-- Witness for C10 at a concrete database: an unowned coin is bought by
id 999 although the clients table is empty. -/
theorem buy_accepts_unknown_buyer_witness :
    findCoin ⟨[], [⟨1, 50, 4, 5, 6, none⟩], []⟩ 1 = some ⟨1, 50, 4, 5, 6, none⟩ ∧
    ((Coin.mk 1 50 4 5 6 none).client_id == some 999) = false ∧
    BuySucceedsFor ⟨[], [⟨1, 50, 4, 5, 6, none⟩], []⟩ 1 999 7 ⟨1, 50, 4, 5, 6, none⟩ :=
  ⟨by decide, by decide,
    buy_accepts_unknown_buyer ⟨[], [⟨1, 50, 4, 5, 6, none⟩], []⟩ 1 999 7
      ⟨1, 50, 4, 5, 6, none⟩ (by decide) (by decide)⟩

/-! ### Claim C8 -/

/-- Claim C8: /api/register with an already-used email answers 400 and
leaves the database unchanged — in particular no duplicate client row
appears; with a fresh email it answers 201 and appends exactly one
client whose stored password is the bcrypt hash of the submitted one,
touching no other table. -/
theorem register_cases (db : DB) (hashFn : String → String)
    (nm email pw : String) (phone address : Option String) :
    (∃ c, c ∈ db.clients ∧ c.email = email ∧
      register db hashFn nm email pw phone address = (400, db)) ∨
    ((db.clients.any (fun c => c.email == email)) = false ∧
      register db hashFn nm email pw phone address =
        (201, ⟨db.clients ++ [⟨nextClientId db, nm, email, hashFn pw, phone, address⟩],
          db.coins, db.transactions⟩)) := by
  cases hfind : db.clients.find? (fun c => c.email == email) with
  | some c =>
    left
    have hmem := List.mem_of_find?_eq_some hfind
    have heq : c.email = email := by
      have := List.find?_some hfind
      simpa using this
    exact ⟨c, hmem, heq, by simp [register, hfind]⟩
  | none =>
    right
    constructor
    · rw [List.any_eq_false]
      intro c hc
      exact List.find?_eq_none.mp hfind c hc
    · simp [register, hfind]

/-! ### Claim C3 -/

/-- Branch equation of generateCoin on an exhausted budget, kept as a
lemma because the attempt budget constant makes tactic-driven unfolding
expensive. -/
theorem generateCoin_none (db : DB) (amount : Int) (draws : Nat → Draw)
    (hf : findFreshTriple db draws = none) :
    generateCoin db amount draws = (400, db) := by
  unfold generateCoin
  rw [hf]

/-- Branch equation of generateCoin on a successful draw. -/
theorem generateCoin_some (db : DB) (amount : Int) (draws : Nat → Draw) (b1 b2 b3 : Nat)
    (hf : findFreshTriple db draws = some (b1, b2, b3)) :
    generateCoin db amount draws =
      (201, ⟨db.clients, db.coins ++ [⟨nextCoinId db, amount, b1, b2, b3, none⟩],
        db.transactions⟩) := by
  unfold generateCoin
  rw [hf]

/-- Claim C3: /api/generate-coin either succeeds with 201 inserting a
single unowned coin (client_id NULL, no transaction touched) whose
triple collides with no pre-existing triple and whose components all lie
in 1..100, or the 10000-draw budget finds no unused triple and the call
answers 400 leaving every table unchanged. -/
theorem generateCoin_cases (db : DB) (amount : Int) (draws : Nat → Draw) :
    (∃ b1 b2 b3, findFreshTriple db draws = some (b1, b2, b3) ∧
      usedTriple db b1 b2 b3 = false ∧
      1 ≤ b1 ∧ b1 ≤ 100 ∧ 1 ≤ b2 ∧ b2 ≤ 100 ∧ 1 ≤ b3 ∧ b3 ≤ 100 ∧
      generateCoin db amount draws =
        (201, ⟨db.clients, db.coins ++ [⟨nextCoinId db, amount, b1, b2, b3, none⟩],
          db.transactions⟩)) ∨
    (findFreshTriple db draws = none ∧ generateCoin db amount draws = (400, db)) := by
  cases hf : findFreshTriple db draws with
  | none =>
    right
    exact ⟨rfl, generateCoin_none db amount draws hf⟩
  | some trip =>
    obtain ⟨b1, b2, b3⟩ := trip
    left
    obtain ⟨k, hk, hgk⟩ := Option.map_eq_some'.mp hf
    have hpk := List.find?_some hk
    have hb1 : (draws k).1.val + 1 = b1 := congrArg Prod.fst hgk
    have hb2 : (draws k).2.1.val + 1 = b2 :=
      congrArg Prod.fst (congrArg Prod.snd hgk)
    have hb3 : (draws k).2.2.val + 1 = b3 :=
      congrArg Prod.snd (congrArg Prod.snd hgk)
    have hused : usedTriple db b1 b2 b3 = false := by
      have := hpk
      simp only [drawBits] at this
      rw [Bool.not_eq_true'] at this
      rw [← hb1, ← hb2, ← hb3]
      simpa [drawBits] using this
    refine ⟨b1, b2, b3, rfl, hused, ?_, ?_, ?_, ?_, ?_, ?_,
      generateCoin_some db amount draws b1 b2 b3 hf⟩
    · omega
    · have := (draws k).1.isLt
      omega
    · omega
    · have := (draws k).2.1.isLt
      omega
    · omega
    · have := (draws k).2.2.isLt
      omega

/-! ### Claim C2 -/

theorem buy_success_inv (db : DB) (cid buyer now : Nat) (amt : Int) (seller : Option Nat)
    (hex : ∃ c, c ∈ db.coins ∧ c.coin_id = cid)
    (hown : OwnerMatchesLastTx db) (href : TxReferencesCoin db) :
    LedgerInv ⟨db.clients,
      db.coins.map (fun c => if c.coin_id == cid then c.setOwner (some buyer) else c),
      db.transactions ++ [⟨nextTxId db, cid, amt, now, seller, buyer⟩]⟩ := by
  constructor
  · intro c' hc'
    dsimp only at hc' ⊢
    obtain ⟨c, hcmem, rfl⟩ := List.mem_map.mp hc'
    by_cases hid : (c.coin_id == cid) = true
    · rw [if_pos hid]
      have hcid : c.coin_id = cid := eq_of_beq hid
      show some buyer =
        (lastTxFor (db.transactions ++ [⟨nextTxId db, cid, amt, now, seller, buyer⟩])
          c.coin_id).map (·.buyer_id)
      have hsing : List.filter (fun t => t.coin_id == cid)
          [(⟨nextTxId db, cid, amt, now, seller, buyer⟩ : Transaction)] =
          [(⟨nextTxId db, cid, amt, now, seller, buyer⟩ : Transaction)] := by simp
      rw [hcid, lastTxFor, List.filter_append, hsing, List.getLast?_concat]
      rfl
    · rw [if_neg hid]
      have hcid : c.coin_id ≠ cid := fun h => hid (by simp [h])
      show c.client_id =
        (lastTxFor (db.transactions ++ [⟨nextTxId db, cid, amt, now, seller, buyer⟩])
          c.coin_id).map (·.buyer_id)
      have hnone : List.filter (fun t => t.coin_id == c.coin_id)
          [(⟨nextTxId db, cid, amt, now, seller, buyer⟩ : Transaction)] = [] := by
        simp only [List.filter, List.filter_nil]
        have : ((⟨nextTxId db, cid, amt, now, seller, buyer⟩ : Transaction).coin_id ==
            c.coin_id) = false := by
          simp
          exact fun h => hcid h.symm
        rw [this]
      rw [lastTxFor, List.filter_append, hnone, List.append_nil]
      exact hown c hcmem
  · intro t ht
    dsimp only at ht ⊢
    rcases List.mem_append.mp ht with hold | hnew
    · obtain ⟨c0, hc0, hc0id⟩ := href t hold
      refine ⟨if c0.coin_id == cid then c0.setOwner (some buyer) else c0,
        List.mem_map_of_mem _ hc0, ?_⟩
      by_cases h : (c0.coin_id == cid) = true
      · rw [if_pos h]
        exact hc0id
      · rw [if_neg h]
        exact hc0id
    · have ht' : t = ⟨nextTxId db, cid, amt, now, seller, buyer⟩ := by simpa using hnew
      subst ht'
      obtain ⟨c, hcmem, hccid⟩ := hex
      refine ⟨if c.coin_id == cid then c.setOwner (some buyer) else c,
        List.mem_map_of_mem _ hcmem, ?_⟩
      by_cases h : (c.coin_id == cid) = true
      · rw [if_pos h]
        exact hccid
      · rw [if_neg h]
        exact hccid

theorem gen_success_inv (db : DB) (amt : Int) (b1 b2 b3 : Nat)
    (hown : OwnerMatchesLastTx db) (href : TxReferencesCoin db) :
    LedgerInv ⟨db.clients, db.coins ++ [⟨nextCoinId db, amt, b1, b2, b3, none⟩],
      db.transactions⟩ := by
  constructor
  · intro c' hc'
    dsimp only at hc' ⊢
    rcases List.mem_append.mp hc' with hold | hnew
    · exact hown c' hold
    · have hc'eq : c' = ⟨nextCoinId db, amt, b1, b2, b3, none⟩ := by simpa using hnew
      subst hc'eq
      show (none : Option Nat) =
        (lastTxFor db.transactions (nextCoinId db)).map (·.buyer_id)
      have hfil : db.transactions.filter (fun t => t.coin_id == nextCoinId db) = [] := by
        refine List.filter_eq_nil_iff.mpr (fun t ht hbeq => ?_)
        obtain ⟨c0, hc0, hc0id⟩ := href t ht
        have hle : t.coin_id ≤ maxNat (db.coins.map (·.coin_id)) :=
          mem_le_maxNat (hc0id ▸ List.mem_map_of_mem _ hc0)
        have heq := eq_of_beq hbeq
        rw [nextCoinId] at heq
        omega
      rw [lastTxFor, hfil]
      rfl
  · intro t ht
    dsimp only at ht ⊢
    obtain ⟨c0, hc0, hc0id⟩ := href t ht
    exact ⟨c0, List.mem_append_left _ hc0, hc0id⟩

theorem applyOp_preserves (db : DB) (op : Op) (h : LedgerInv db) :
    LedgerInv (applyOp db op) ∧
      ∃ ts, (applyOp db op).transactions = db.transactions ++ ts := by
  obtain ⟨hown, href⟩ := h
  cases op with
  | buy cid buyer now =>
    simp only [applyOp]
    cases hf : findCoin db cid with
    | none =>
      rw [show buyCoin db cid buyer now = (404, db) from by simp [buyCoin, hf]]
      exact ⟨⟨hown, href⟩, [], by simp⟩
    | some coin =>
      by_cases hcond : (truthyId coin.client_id && (coin.client_id == some buyer)) = true
      · rw [show buyCoin db cid buyer now = (400, db) from by simp [buyCoin, hf, hcond]]
        exact ⟨⟨hown, href⟩, [], by simp⟩
      · have hcf := Bool.eq_false_iff.mpr hcond
        have hbc : buyCoin db cid buyer now =
            (200, ⟨db.clients,
              db.coins.map (fun c => if c.coin_id == cid then c.setOwner (some buyer) else c),
              db.transactions ++ [⟨nextTxId db, cid, coin.value, now,
                if truthyId coin.client_id then coin.client_id else none, buyer⟩]⟩) := by
          simp [buyCoin, hf, hcf]
        rw [hbc]
        have hmem := List.mem_of_find?_eq_some hf
        have hcid : coin.coin_id = cid := by
          have := List.find?_some hf
          simpa using this
        refine ⟨buy_success_inv db cid buyer now coin.value
          (if truthyId coin.client_id then coin.client_id else none)
          ⟨coin, hmem, hcid⟩ hown href,
          [⟨nextTxId db, cid, coin.value, now,
            if truthyId coin.client_id then coin.client_id else none, buyer⟩], rfl⟩
  | gen amt draws =>
    simp only [applyOp]
    cases hf : findFreshTriple db draws with
    | none =>
      rw [generateCoin_none db amt draws hf]
      exact ⟨⟨hown, href⟩, [], by simp⟩
    | some trip =>
      obtain ⟨b1, b2, b3⟩ := trip
      rw [generateCoin_some db amt draws b1 b2 b3 hf]
      exact ⟨gen_success_inv db amt b1 b2 b3 hown href, [], by simp⟩

theorem runOps_inv (ops : List Op) (db : DB) (h : LedgerInv db) :
    LedgerInv (runOps db ops) ∧
      ∃ ts, (runOps db ops).transactions = db.transactions ++ ts := by
  induction ops generalizing db with
  | nil => exact ⟨h, [], by simp [runOps]⟩
  | cons op ops ih =>
    obtain ⟨h1, ts1, hts1⟩ := applyOp_preserves db op h
    obtain ⟨h2, ts2, hts2⟩ := ih (applyOp db op) h1
    refine ⟨h2, ts1 ++ ts2, ?_⟩
    rw [show runOps db (op :: ops) = runOps (applyOp db op) ops from rfl, hts2, hts1,
      List.append_assoc]

/-- Claim C2: starting from any state satisfying the ownership invariant
(together with the referential fact that every transaction is about an
existing coin, which every database built by the system satisfies),
every sequence of /api/buy and /api/generate-coin calls preserves the
invariant: a coin's client_id is the buyer of its most recent
transaction (none when it has none); and the transaction table only ever
grows by appending, never updating or deleting. -/
theorem ownership_invariant_preserved (ops : List Op) (db : DB) (h : LedgerInv db) :
    OwnerMatchesLastTx (runOps db ops) ∧
      ∃ ts, (runOps db ops).transactions = db.transactions ++ ts :=
  ⟨(runOps_inv ops db h).1.1, (runOps_inv ops db h).2⟩

/-- Witness for C2 at a concrete state: one unowned coin, then a buy
followed by a fresh generation. -/
theorem ownership_invariant_preserved_witness :
    LedgerInv ⟨[], [⟨1, 100, 1, 2, 3, none⟩], []⟩ ∧
      (OwnerMatchesLastTx
          (runOps ⟨[], [⟨1, 100, 1, 2, 3, none⟩], []⟩ [Op.buy 1 7 11]) ∧
        ∃ ts, (runOps ⟨[], [⟨1, 100, 1, 2, 3, none⟩], []⟩ [Op.buy 1 7 11]).transactions =
          ([] : List Transaction) ++ ts) := by
  constructor
  · unfold LedgerInv OwnerMatchesLastTx TxReferencesCoin lastTxFor
    decide
  · exact ownership_invariant_preserved [Op.buy 1 7 11]
      ⟨[], [⟨1, 100, 1, 2, 3, none⟩], []⟩
      (by unfold LedgerInv OwnerMatchesLastTx TxReferencesCoin lastTxFor; decide)

/-! ### Claim C4 -/

/-- Claim C4: for every combination of the six filters and any page and
limit, the total field of /api/transactions equals the number of
transactions of the whole database satisfying the conjunction of the
supplied filters. The hypotheses are the schema facts: client ids and
coin ids are unique, and every transaction refers to an existing buyer
and an existing coin. -/
theorem total_counts_filtered (db : DB) (f : TxFilters) (page limit : Int)
    (hcn : (db.clients.map (·.id)).Nodup)
    (hkn : (db.coins.map (·.coin_id)).Nodup)
    (hb : ∀ t ∈ db.transactions, ∃ b ∈ db.clients, b.id = t.buyer_id)
    (hc : ∀ t ∈ db.transactions, ∃ c ∈ db.coins, c.coin_id = t.coin_id) :
    TotalMatchesFilteredCount db f page limit := by
  unfold TotalMatchesFilteredCount
  have htot : (listTransactions db f page limit).total =
      ((joinedRows db).filter (rowMatches f)).length := rfl
  rw [htot, joinedRows]
  refine length_filter_flatMap_singleton db.transactions (joinTx db) (rowMatches f)
    (txSatisfies db f) ?_
  intro t ht
  obtain ⟨b, hbmem, hbid⟩ := hb t ht
  obtain ⟨c, hcmem, hcid⟩ := hc t ht
  exact ⟨⟨t, sellerLookup db.clients t.seller_id, b, c⟩,
    joinTx_eq_singleton db t hcn b hbmem hbid c hcmem hcid hkn,
    rowMatches_joined_eq db f t hcn b hbmem hbid c hcmem hcid hkn⟩

/-- Witness for C4 at a concrete database: one client, one coin, one
transaction, no filters. -/
theorem total_counts_filtered_witness :
    ((DB.mk [⟨1, "Ann", "ann@x", "h", none, none⟩] [⟨1, 100, 1, 2, 3, some 1⟩]
        [⟨1, 1, 100, 10, none, 1⟩]).clients.map (·.id)).Nodup ∧
    ((DB.mk [⟨1, "Ann", "ann@x", "h", none, none⟩] [⟨1, 100, 1, 2, 3, some 1⟩]
        [⟨1, 1, 100, 10, none, 1⟩]).coins.map (·.coin_id)).Nodup ∧
    (∀ t ∈ (DB.mk [⟨1, "Ann", "ann@x", "h", none, none⟩] [⟨1, 100, 1, 2, 3, some 1⟩]
        [⟨1, 1, 100, 10, none, 1⟩]).transactions,
      ∃ b ∈ (DB.mk [⟨1, "Ann", "ann@x", "h", none, none⟩] [⟨1, 100, 1, 2, 3, some 1⟩]
        [⟨1, 1, 100, 10, none, 1⟩]).clients, b.id = t.buyer_id) ∧
    (∀ t ∈ (DB.mk [⟨1, "Ann", "ann@x", "h", none, none⟩] [⟨1, 100, 1, 2, 3, some 1⟩]
        [⟨1, 1, 100, 10, none, 1⟩]).transactions,
      ∃ c ∈ (DB.mk [⟨1, "Ann", "ann@x", "h", none, none⟩] [⟨1, 100, 1, 2, 3, some 1⟩]
        [⟨1, 1, 100, 10, none, 1⟩]).coins, c.coin_id = t.coin_id) ∧
    TotalMatchesFilteredCount
      ⟨[⟨1, "Ann", "ann@x", "h", none, none⟩], [⟨1, 100, 1, 2, 3, some 1⟩],
        [⟨1, 1, 100, 10, none, 1⟩]⟩ TxFilters.none 1 15 :=
  ⟨by decide, by decide, by decide, by decide,
    total_counts_filtered
      ⟨[⟨1, "Ann", "ann@x", "h", none, none⟩], [⟨1, 100, 1, 2, 3, some 1⟩],
        [⟨1, 1, 100, 10, none, 1⟩]⟩ TxFilters.none 1 15
      (by decide) (by decide) (by decide) (by decide)⟩

/-! ### Claim C5 -/

/-- The rows a coin contributes to the owned-coins query: with strictly
increasing transaction ids, the MAX(id) join condition picks exactly the
last transaction of the list, kept only when its buyer is the user. -/
theorem filter_maxid_buyer (l : List Transaction) (u : Nat)
    (hpc : (l.map (·.id)).Pairwise (· < ·)) :
    l.filter (fun t => sqlMaxNat (l.map (·.id)) == some t.id && t.buyer_id == u) =
      (match l.getLast? with
       | some tl => if tl.buyer_id == u then [tl] else []
       | none => []) := by
  cases hl : l.getLast? with
  | none =>
    have hnil : l = [] := List.getLast?_eq_none_iff.mp hl
    subst hnil
    rfl
  | some tl =>
    have htl : tl ∈ l := List.mem_of_getLast?_eq_some hl
    have hmax : sqlMaxNat (l.map (·.id)) = some tl.id := by
      rw [sqlMaxNat_increasing hpc, List.getLast?_map, hl]
      rfl
    have hnodup : (l.map (·.id)).Nodup := hpc.imp Nat.ne_of_lt
    have hcongr : ∀ t ∈ l,
        (sqlMaxNat (l.map (·.id)) == some t.id && t.buyer_id == u) =
          (t.buyer_id == u && t.id == tl.id) := by
      intro t _
      rw [hmax]
      by_cases h : t.id = tl.id
      · simp [h]
      · have h1 : (tl.id == t.id) = false := by
          simp
          exact Ne.symm h
        have h2 : (t.id == tl.id) = false := by
          simp
          exact h
        simp [h1, h2]
    rw [List.filter_congr hcongr, ← List.filter_filter,
      filter_key_unique Transaction.id hnodup htl rfl]
    cases hbu : tl.buyer_id == u
    · simp [List.filter_cons, hbu]
    · simp [List.filter_cons, hbu]

theorem profileCoinRows_eq_ownedByUser (db : DB) (u : Nat)
    (hinc : (db.transactions.map (·.id)).Pairwise (· < ·)) :
    profileCoinRows db u = ownedByUser db u := by
  unfold profileCoinRows ownedByUser
  rw [← flatMap_if_singleton_eq_filter db.coins (fun c =>
    match lastTxFor db.transactions c.coin_id with
    | some t => t.buyer_id == u
    | none => false)]
  refine List.flatMap_congr (fun c _ => ?_)
  have hassoc : ∀ t ∈ db.transactions,
      ((t.coin_id == c.coin_id && maxTxIdFor db c.coin_id == some t.id) && t.buyer_id == u) =
        (t.coin_id == c.coin_id && (maxTxIdFor db c.coin_id == some t.id && t.buyer_id == u)) :=
    fun t _ => Bool.and_assoc _ _ _
  have hsplit : db.transactions.filter (fun t =>
      t.coin_id == c.coin_id && (maxTxIdFor db c.coin_id == some t.id && t.buyer_id == u)) =
      (db.transactions.filter (fun t => t.coin_id == c.coin_id)).filter (fun t =>
        maxTxIdFor db c.coin_id == some t.id && t.buyer_id == u) := by
    rw [List.filter_filter]
    exact List.filter_congr (fun t _ => by rw [Bool.and_comm])
  rw [List.filter_congr hassoc, hsplit]
  have hsub : (db.transactions.filter (fun t => t.coin_id == c.coin_id)).Sublist
      db.transactions := List.filter_sublist _
  have hpc : ((db.transactions.filter (fun t => t.coin_id == c.coin_id)).map
      (·.id)).Pairwise (· < ·) :=
    List.Pairwise.sublist (hsub.map (·.id)) hinc
  have hmx : maxTxIdFor db c.coin_id =
      sqlMaxNat ((db.transactions.filter (fun t => t.coin_id == c.coin_id)).map (·.id)) := rfl
  rw [hmx, filter_maxid_buyer (db.transactions.filter (fun t => t.coin_id == c.coin_id)) u hpc]
  have hlast : lastTxFor db.transactions c.coin_id =
      (db.transactions.filter (fun t => t.coin_id == c.coin_id)).getLast? := rfl
  rw [hlast]
  cases (db.transactions.filter (fun t => t.coin_id == c.coin_id)).getLast? with
  | none => rfl
  | some tl =>
    cases htl : tl.buyer_id == u <;> simp [htl]

/-- Claim C5: /api/profile reports the number of transactions in which the
user is buyer or seller, and the count and summed value of exactly the
coins whose most recent transaction (the one with maximal id, matching
the handler's MAX(id) subquery) has the user as buyer. The hypothesis is
the schema fact that transaction ids increase in insertion order. -/
theorem profile_matches_spec (db : DB) (u : Nat)
    (hinc : (db.transactions.map (·.id)).Pairwise (· < ·)) :
    ProfileMatchesSpec db u := by
  have key := profileCoinRows_eq_ownedByUser db u hinc
  refine ⟨rfl, ?_, ?_⟩
  · show (profileCoinRows db u).length = (ownedByUser db u).length
    rw [key]
  · show (profileCoinRows db u).foldl (fun acc c => acc + c.value) 0 =
      ((ownedByUser db u).map (·.value)).sum
    rw [key, foldl_add_value]
    simp

/-- Witness for C5 at a concrete database: a coin owned by client 7 via a
single transaction. -/
theorem profile_matches_spec_witness :
    ((DB.mk [] [⟨1, 100, 1, 2, 3, some 7⟩]
        [⟨1, 1, 100, 10, none, 7⟩]).transactions.map (·.id)).Pairwise (· < ·) ∧
    ProfileMatchesSpec ⟨[], [⟨1, 100, 1, 2, 3, some 7⟩], [⟨1, 1, 100, 10, none, 7⟩]⟩ 7 :=
  ⟨by decide,
    profile_matches_spec ⟨[], [⟨1, 100, 1, 2, 3, some 7⟩], [⟨1, 1, 100, 10, none, 7⟩]⟩ 7
      (by decide)⟩

/-! ### Claim C6 -/

theorem rowMatches_true_specRowOk (f : TxFilters) (r : JoinedTx)
    (hm : rowMatches f r = true) : specRowOk f r := by
  unfold rowMatches at hm
  simp only [Bool.and_eq_true] at hm
  obtain ⟨⟨⟨⟨⟨hA, hB⟩, hC⟩, hD⟩, hE⟩, hF⟩ := hm
  refine ⟨?_, ?_, ?_, ?_, ?_, ?_⟩
  · intro d hd
    rw [hd] at hA
    simpa using hA
  · intro d hd
    rw [hd] at hB
    simpa using hB
  · intro v hv
    rw [hv] at hC
    simpa using hC
  · intro v hv
    rw [hv] at hD
    simpa using hD
  · intro p hp
    rw [hp] at hE
    simpa using hE
  · intro p hp
    rw [hp] at hF
    cases hs : r.seller with
    | none =>
      rw [hs] at hF
      exact absurd hF (by simp)
    | some s =>
      rw [hs] at hF
      exact ⟨s, rfl, hF⟩

/-- Claim C6: /api/transactions returns the slice starting at offset
(page - 1) * limit, of length at most limit, of the date-descending
ordering of the rows satisfying all supplied filters; filters act
conjunctively on each returned row; nothing bounds limit from above.
The hypotheses restrict to meaningful pagination input: page at least 1
and a nonnegative limit (SQLite treats a negative LIMIT as unbounded). -/
theorem page_spec (db : DB) (f : TxFilters) (page limit : Int)
    (hp : 1 ≤ page) (hl : 0 ≤ limit) :
    PageSpec db f page limit := by
  have hrows : (listTransactions db f page limit).rows =
      ((((joinedRows db).filter (rowMatches f)).insertionSort dateDesc).drop
        ((page - 1) * limit).toNat).take limit.toNat := by
    show sqlLimitOffset limit ((page - 1) * limit)
        (((joinedRows db).filter (rowMatches f)).insertionSort dateDesc) = _
    rw [sqlLimitOffset]
    rw [if_neg (not_lt.mpr hl)]
  have hsub : List.Sublist
      (((((joinedRows db).filter (rowMatches f)).insertionSort dateDesc).drop
        ((page - 1) * limit).toNat).take limit.toNat)
      (((joinedRows db).filter (rowMatches f)).insertionSort dateDesc) :=
    List.Sublist.trans (List.take_sublist _ _) (List.drop_sublist _ _)
  refine ⟨hrows, ?_, ?_, ?_⟩
  · have hnn : 0 ≤ (page - 1) * limit := mul_nonneg (by omega) hl
    omega
  · rw [hrows]
    exact List.Pairwise.sublist hsub (List.sorted_insertionSort dateDesc _)
  · intro r hr
    rw [hrows] at hr
    have h1 : r ∈ ((joinedRows db).filter (rowMatches f)).insertionSort dateDesc :=
      hsub.subset hr
    have h2 : r ∈ (joinedRows db).filter (rowMatches f) := by
      simpa using h1
    exact rowMatches_true_specRowOk f r (List.of_mem_filter h2)

/-- Witness for C6 at page 1, limit 15 on a concrete database. -/
theorem page_spec_witness :
    (1 : Int) ≤ 1 ∧ (0 : Int) ≤ 15 ∧ PageSpec emptyDB TxFilters.none 1 15 :=
  ⟨by decide, by decide, page_spec emptyDB TxFilters.none 1 15 (by decide) (by decide)⟩

/-! ### Claim C7 -/

/-- Claim C7: /api/coin-history returns exactly the transactions of the
requested coin (as a permutation, made concrete by the ascending sort),
ordered by date ascending, with the buyer resolved to the client whose
id is the transaction's buyer id and the seller resolved by the LEFT
JOIN lookup; the modal shows a NULL seller as the original issuer.
The hypotheses are the schema facts: client ids are unique and every
transaction's buyer exists. -/
theorem coin_history_spec (db : DB) (cid : Nat)
    (hcn : (db.clients.map (·.id)).Nodup)
    (hb : ∀ t ∈ db.transactions, ∃ b ∈ db.clients, b.id = t.buyer_id) :
    HistorySpec db cid := by
  have hsing : ∀ t ∈ db.transactions, ∃ r, joinHist db t = [r] ∧ r.t = t := by
    intro t ht
    obtain ⟨b, hbm, hbi⟩ := hb t ht
    exact ⟨⟨t, sellerLookup db.clients t.seller_id, b⟩,
      joinHist_eq_singleton db t hcn b hbm hbi, rfl⟩
  have hmapeq : ((db.transactions.flatMap (joinHist db)).filter
      (fun x => x.t.coin_id == cid)).map (fun x => x.t) =
      db.transactions.filter (fun t => t.coin_id == cid) :=
    filter_flatMap_map_eq db.transactions (joinHist db) (fun x => x.t)
      (fun t => t.coin_id == cid) hsing
  have hshape : ∀ r ∈ coinHistory db cid, ∃ t, t ∈ db.transactions ∧ ∃ b, b ∈ db.clients ∧
      b.id = t.buyer_id ∧ r = ⟨t, sellerLookup db.clients t.seller_id, b⟩ := by
    intro r hr
    have h1 : r ∈ (db.transactions.flatMap (joinHist db)).filter
        (fun x => x.t.coin_id == cid) := by
      simpa [coinHistory] using hr
    have h2 : r ∈ db.transactions.flatMap (joinHist db) := List.mem_of_mem_filter h1
    obtain ⟨t, ht, hrj⟩ := List.mem_flatMap.mp h2
    obtain ⟨b, hbm, hbi⟩ := hb t ht
    rw [joinHist_eq_singleton db t hcn b hbm hbi] at hrj
    have hre : r = ⟨t, sellerLookup db.clients t.seller_id, b⟩ := by simpa using hrj
    exact ⟨t, ht, b, hbm, hbi, hre⟩
  refine ⟨?_, ?_, ?_, ?_⟩
  · have hperm : (coinHistory db cid).map (fun x => x.t) |>.Perm
        (((db.transactions.flatMap (joinHist db)).filter
          (fun x => x.t.coin_id == cid)).map (fun x => x.t)) :=
      (List.perm_insertionSort dateAsc _).map _
    rw [hmapeq] at hperm
    exact hperm
  · exact List.sorted_insertionSort dateAsc _
  · intro r hr
    obtain ⟨t, _, b, hbm, hbi, hre⟩ := hshape r hr
    subst hre
    exact ⟨hbm, hbi, rfl⟩
  · intro r hr hsid
    obtain ⟨t, _, b, _, _, hre⟩ := hshape r hr
    subst hre
    have hts : t.seller_id = none := hsid
    rw [renderHistEntry]
    rw [hts]
    rfl

/-- Witness for C7 at a concrete database: one client, one transaction on
coin 1 with a NULL seller. -/
theorem coin_history_spec_witness :
    ((DB.mk [⟨7, "Bob", "b@x", "h", none, none⟩] []
        [⟨1, 1, 100, 10, none, 7⟩]).clients.map (·.id)).Nodup ∧
    (∀ t ∈ (DB.mk [⟨7, "Bob", "b@x", "h", none, none⟩] []
        [⟨1, 1, 100, 10, none, 7⟩]).transactions,
      ∃ b ∈ (DB.mk [⟨7, "Bob", "b@x", "h", none, none⟩] []
        [⟨1, 1, 100, 10, none, 7⟩]).clients, b.id = t.buyer_id) ∧
    HistorySpec ⟨[⟨7, "Bob", "b@x", "h", none, none⟩], [], [⟨1, 1, 100, 10, none, 7⟩]⟩ 1 :=
  ⟨by decide, by decide,
    coin_history_spec ⟨[⟨7, "Bob", "b@x", "h", none, none⟩], [], [⟨1, 1, 100, 10, none, 7⟩]⟩ 1
      (by decide) (by decide)⟩

/-! ### Claim C9 -/

theorem apiDispatch_register (hashFn : String → String) (compareFn : String → String → Bool)
    (draws : Nat → Draw) (now : Nat) (db : DB) (r : ApiRequest) :
    apiDispatch hashFn compareFn draws now db "/api/register" r =
      some (registerRoute hashFn db r) := rfl

theorem apiDispatch_transactions (hashFn : String → String)
    (compareFn : String → String → Bool) (draws : Nat → Draw) (now : Nat) (db : DB)
    (r : ApiRequest) :
    apiDispatch hashFn compareFn draws now db "/api/transactions" r =
      some (transactionsRoute db r) := rfl

theorem apiDispatch_login (hashFn : String → String) (compareFn : String → String → Bool)
    (draws : Nat → Draw) (now : Nat) (db : DB) (r : ApiRequest) :
    apiDispatch hashFn compareFn draws now db "/api/login" r =
      some (loginRoute compareFn db r) := rfl

theorem apiDispatch_buy (hashFn : String → String) (compareFn : String → String → Bool)
    (draws : Nat → Draw) (now : Nat) (db : DB) (r : ApiRequest) :
    apiDispatch hashFn compareFn draws now db "/api/buy" r =
      some (buyRoute now db r) := rfl

theorem apiDispatch_generate (hashFn : String → String) (compareFn : String → String → Bool)
    (draws : Nat → Draw) (now : Nat) (db : DB) (r : ApiRequest) :
    apiDispatch hashFn compareFn draws now db "/api/generate-coin" r =
      some (generateRoute draws db r) := rfl

theorem apiDispatch_coinHistory (hashFn : String → String)
    (compareFn : String → String → Bool) (draws : Nat → Draw) (now : Nat) (db : DB)
    (r : ApiRequest) :
    apiDispatch hashFn compareFn draws now db "/api/coin-history" r =
      some (coinHistoryRoute db r) := rfl

/-- Counterexample to claim C9: a POST request to the read endpoint
/api/transactions is not answered with 405 — the handler performs no
verb check and answers 200. -/
theorem wrong_verb_not_rejected :
    apiDispatch id (fun _ _ => false) (fun _ => (0, 0, 0)) 0 emptyDB "/api/transactions"
        (emptyReq Method.POST) = some (200, emptyDB) ∧
    apiDispatch id (fun _ _ => false) (fun _ => (0, 0, 0)) 0 emptyDB "/api/transactions"
        (emptyReq Method.POST) ≠ some (405, emptyDB) := by
  constructor
  · rfl
  · intro h
    rw [apiDispatch_transactions] at h
    exact absurd (Option.some.inj h) (by decide)

/-- Corrected claim C9: exactly the five routes that check the verb reject
a wrong one with 405 and leave the database untouched — /api/register,
/api/login, /api/buy and /api/generate-coin on any non-POST request,
/api/coin-history on any non-GET request. (The read endpoints
/api/transactions, /api/coins and /api/profile run under every verb.) -/
theorem method_checked_routes (hashFn : String → String)
    (compareFn : String → String → Bool) (draws : Nat → Draw) (now : Nat) (db : DB)
    (r1 r2 : ApiRequest) (h1 : r1.method ≠ Method.POST) (h2 : r2.method ≠ Method.GET) :
    WrongVerbRejected hashFn compareFn draws now db r1 r2 := by
  have hb1 : (r1.method == Method.POST) = false := by simp [h1]
  have hb2 : (r2.method == Method.GET) = false := by simp [h2]
  refine ⟨?_, ?_, ?_, ?_, ?_⟩
  · rw [apiDispatch_register]
    simp [registerRoute, hb1]
  · rw [apiDispatch_login]
    simp [loginRoute, hb1]
  · rw [apiDispatch_buy]
    simp [buyRoute, hb1]
  · rw [apiDispatch_generate]
    simp [generateRoute, hb1]
  · rw [apiDispatch_coinHistory]
    simp [coinHistoryRoute, hb2]

/-- Witness for the corrected C9: a GET request to the POST routes and a
POST request to /api/coin-history, on a concrete database. -/
theorem method_checked_routes_witness :
    (emptyReq Method.GET).method ≠ Method.POST ∧
    (emptyReq Method.POST).method ≠ Method.GET ∧
    WrongVerbRejected id (fun _ _ => false) (fun _ => (0, 0, 0)) 0 emptyDB
      (emptyReq Method.GET) (emptyReq Method.POST) :=
  ⟨by decide, by decide,
    method_checked_routes id (fun _ _ => false) (fun _ => (0, 0, 0)) 0 emptyDB
      (emptyReq Method.GET) (emptyReq Method.POST) (by decide) (by decide)⟩

end BitSlowMarket
